import Mathlib

/-!
Verification of `addons/xivparty/resize_textures.py`.

The script works on Python arbitrary-precision integers, so integer
quantities are embedded as `Int`.  The filesystem, the PIL image
library and the driver loop are embedded further below as explicit
state passing over a finite map from paths to files.
-/

namespace ResizeTextures

/-- The loop `while p < n: p *= 2` of `next_pow2`, with an explicit
iteration budget `gas`.  Each call of `nextPow2Go (g+1) p n` performs one
test of the loop guard `p < n`; when the guard fails the loop exits with
`p`.  Exhausted gas also returns `p`; `nextPow2Go_stable` below shows the
budget used by `next_pow2` is never exhausted, so this is the exact loop
semantics. -/
def nextPow2Go (gas : Nat) (p n : Int) : Int :=
  match gas with
  | 0 => p
  | g + 1 => if p < n then nextPow2Go g (2 * p) n else p

/-- `next_pow2(n)` from resize_textures.py: `p = 1; while p < n: p *= 2; return p`.
The budget `n.toNat + 1` is sufficient (`nextPow2Go_stable`), so this equals
the unbounded loop. -/
def next_pow2 (n : Int) : Int :=
  nextPow2Go (n.toNat + 1) 1 n

/-- `is_pow2(n)` from resize_textures.py: `n > 0 and (n & (n - 1)) == 0`.
Python `&` on ints is two's-complement bitwise and, i.e. `Int.land`. -/
def is_pow2 (n : Int) : Bool :=
  decide (0 < n) && (Int.land n (n - 1) == 0)

/-- Loop invariant of `nextPow2Go`: as long as the budget suffices to
reach the exit (`n ≤ p * 2 ^ gas`) and `p` is positive, the loop returns
the least value of the form `p * 2 ^ i` that is `≥ n` (and `≥ p`). -/
theorem nextPow2Go_spec : ∀ (gas : Nat) (p n : Int), 0 < p → n ≤ p * 2 ^ gas →
    n ≤ nextPow2Go gas p n ∧ p ≤ nextPow2Go gas p n ∧
    (∃ i : Nat, nextPow2Go gas p n = p * 2 ^ i) ∧
    ∀ q : Int, n ≤ q → (∃ j : Nat, q = p * 2 ^ j) → nextPow2Go gas p n ≤ q := by
  intro gas
  induction gas with
  | zero =>
    intro p n hp hle
    simp only [pow_zero, mul_one] at hle
    refine ⟨hle, le_refl p, ⟨0, by simp [nextPow2Go]⟩, ?_⟩
    intro q hq hj
    obtain ⟨j, rfl⟩ := hj
    have h0 : (0 : Int) < 2 ^ j := by positivity
    have h1 : (1 : Int) ≤ 2 ^ j := by omega
    simpa [nextPow2Go] using le_mul_of_one_le_right hp.le h1
  | succ g ih =>
    intro p n hp hle
    by_cases hpn : p < n
    · have hp2 : (0 : Int) < 2 * p := by omega
      have hle2 : n ≤ 2 * p * 2 ^ g := by
        have : p * 2 ^ (g + 1) = 2 * p * 2 ^ g := by ring
        omega
      obtain ⟨h1, h2, h3, h4⟩ := ih (2 * p) n hp2 hle2
      refine ⟨by simpa [nextPow2Go, hpn] using h1, ?_, ?_, ?_⟩
      · simp only [nextPow2Go, if_pos hpn]
        exact le_trans (by omega) h2
      · obtain ⟨i, hi⟩ := h3
        exact ⟨i + 1, by simp only [nextPow2Go, if_pos hpn, hi]; ring⟩
      · intro q hq hj
        obtain ⟨j, rfl⟩ := hj
        have hjpos : j ≠ 0 := by
          rintro rfl
          simp only [pow_zero, mul_one] at hq
          omega
        obtain ⟨j', rfl⟩ := Nat.exists_eq_succ_of_ne_zero hjpos
        have hq' : p * 2 ^ j'.succ = 2 * p * 2 ^ j' := by rw [pow_succ]; ring
        simp only [nextPow2Go, if_pos hpn]
        rw [hq']
        exact h4 (2 * p * 2 ^ j') (by omega) ⟨j', rfl⟩
    · have hnp : n ≤ p := not_lt.mp hpn
      refine ⟨by simp [nextPow2Go, hpn, hnp], by simp [nextPow2Go, hpn], ⟨0, by simp [nextPow2Go, hpn]⟩, ?_⟩
      intro q hq hj
      obtain ⟨j, rfl⟩ := hj
      have h0 : (0 : Int) < 2 ^ j := by positivity
      have h1 : (1 : Int) ≤ 2 ^ j := by omega
      simpa [nextPow2Go, hpn] using le_mul_of_one_le_right hp.le h1

/-- Once the budget suffices to reach the loop exit, adding more budget
does not change the result: the loop has terminated. -/
theorem nextPow2Go_stable : ∀ (gas : Nat) (p n : Int), 0 < p → n ≤ p * 2 ^ gas →
    ∀ gas2 : Nat, gas ≤ gas2 → nextPow2Go gas2 p n = nextPow2Go gas p n := by
  intro gas
  induction gas with
  | zero =>
    intro p n hp hle gas2 _
    simp only [pow_zero, mul_one] at hle
    cases gas2 with
    | zero => rfl
    | succ g2 =>
      have : ¬ p < n := by omega
      simp [nextPow2Go, this]
  | succ g ih =>
    intro p n hp hle gas2 hg2
    obtain ⟨g2, rfl⟩ := Nat.exists_eq_add_of_le hg2
    have heq : g + 1 + g2 = (g + g2) + 1 := by omega
    rw [heq]
    by_cases hpn : p < n
    · have hp2 : (0 : Int) < 2 * p := by omega
      have hle2 : n ≤ 2 * p * 2 ^ g := by
        have : p * 2 ^ (g + 1) = 2 * p * 2 ^ g := by ring
        omega
      simp only [nextPow2Go, if_pos hpn]
      exact ih (2 * p) n hp2 hle2 (g + g2) (Nat.le_add_right g g2)
    · simp only [nextPow2Go, if_neg hpn]

/-- The default budget `n.toNat + 1` of `next_pow2` reaches the loop exit:
`n ≤ 1 * 2 ^ (n.toNat + 1)`. -/
theorem next_pow2_budget (n : Int) : n ≤ 1 * 2 ^ (n.toNat + 1) := by
  rcases le_or_lt n 0 with h | h
  · have : (0 : Int) < 2 ^ (n.toNat + 1) := by positivity
    omega
  · have h1 : (n.toNat : Int) = n := Int.toNat_of_nonneg h.le
    have h2 : n.toNat < 2 ^ n.toNat := Nat.lt_two_pow n.toNat
    have h3 : (n.toNat : Int) < (2 : Int) ^ n.toNat := by exact_mod_cast h2
    have h4 : (2 : Int) ^ n.toNat ≤ 2 ^ (n.toNat + 1) := by
      have h5 : (0 : Int) < 2 ^ n.toNat := by positivity
      rw [pow_succ]
      omega
    omega

/-- Auxiliary fact about the bit trick of `is_pow2` on naturals:
for positive `m`, `m &&& (m - 1) = 0` iff `m` is a power of two. -/
theorem land_pred_eq_zero_iff : ∀ m : Nat, 0 < m →
    ((m &&& (m - 1)) = 0 ↔ ∃ k : Nat, m = 2 ^ k) := by
  intro m
  induction m using Nat.strong_induction_on with
  | _ m ih =>
    intro hm
    rcases Nat.even_or_odd m with he | ho
    · obtain ⟨t, ht⟩ := he
      have hmt : m = 2 * t := by omega
      have ht1 : 1 ≤ t := by omega
      have hb1 : m = Nat.bit false t := by simp [Nat.bit]; omega
      have hb2 : m - 1 = Nat.bit true (t - 1) := by simp [Nat.bit]; omega
      have hland : m &&& (m - 1) = 2 * (t &&& (t - 1)) := by
        rw [hb2, hb1, Nat.land_bit]
        simp [Nat.bit]
      rw [hland]
      have iht := ih t (by omega) (by omega)
      constructor
      · intro h0
        obtain ⟨k, hk⟩ := iht.mp (by omega)
        exact ⟨k + 1, by rw [hmt, hk, pow_succ]; ring⟩
      · rintro ⟨k, hk⟩
        cases k with
        | zero => simp at hk; omega
        | succ k' =>
          have h2t : 2 * t = 2 * 2 ^ k' := by rw [← hmt, hk]; ring
          have htk : t = 2 ^ k' := by omega
          have := iht.mpr ⟨k', htk⟩
          omega
    · obtain ⟨t, ht⟩ := ho
      rcases Nat.eq_zero_or_pos t with rfl | ht1
      · subst ht
        exact ⟨fun _ => ⟨0, rfl⟩, fun _ => by decide⟩
      · have hb1 : m = Nat.bit true t := by simp [Nat.bit]; omega
        have hb2 : m - 1 = Nat.bit false t := by simp [Nat.bit]; omega
        have hland : m &&& (m - 1) = 2 * t := by
          rw [hb2, hb1, Nat.land_bit]
          simp [Nat.bit, Nat.and_self]
        rw [hland]
        constructor
        · intro h0
          exact absurd h0 (by omega)
        · rintro ⟨k, hk⟩
          cases k with
          | zero => simp at hk; omega
          | succ k' =>
            exfalso
            have : m = 2 * 2 ^ k' := by rw [hk]; ring
            omega

/-- C9: `is_pow2(n)` is true iff `n` is a positive integer with exactly one
set bit, i.e. a power of two; in particular `is_pow2(n)` is false for every
`n ≤ 0`. -/
theorem is_pow2_correct (n : Int) :
    (is_pow2 n = true ↔ 0 < n ∧ ∃ k : Nat, n = 2 ^ k) ∧
    (n ≤ 0 → is_pow2 n = false) := by
  constructor
  · rcases le_or_lt n 0 with h | h
    · constructor
      · intro habs
        simp only [is_pow2, Bool.and_eq_true, decide_eq_true_eq] at habs
        omega
      · intro ⟨h0, _⟩
        omega
    · obtain ⟨m, rfl⟩ := Int.eq_ofNat_of_zero_le h.le
      have hm : 0 < m := by exact_mod_cast h
      have hsub : (m : Int) - 1 = ((m - 1 : Nat) : Int) := by omega
      have hland : Int.land (m : Int) ((m - 1 : Nat) : Int) = ((m &&& (m - 1) : Nat) : Int) := rfl
      simp only [is_pow2, Bool.and_eq_true, decide_eq_true_eq, beq_iff_eq, hsub, hland]
      rw [show (((m &&& (m - 1) : Nat) : Int) = 0 ↔ (m &&& (m - 1) : Nat) = 0) from by exact_mod_cast Iff.rfl]
      rw [land_pred_eq_zero_iff m hm]
      constructor
      · rintro ⟨_, k, hk⟩
        exact ⟨h, k, by exact_mod_cast hk⟩
      · rintro ⟨_, k, hk⟩
        exact ⟨h, k, by exact_mod_cast hk⟩
  · intro h
    simp only [is_pow2, Bool.and_eq_false_iff, decide_eq_false_iff_not]
    left
    omega

/-- Witness for `is_pow2_correct` at `n = -3`. -/
theorem is_pow2_correct_witness : is_pow2 (-3) = false :=
  (is_pow2_correct (-3)).2 (by decide)

/-- C1: for every positive integer `n`, `next_pow2 n` is a power of two,
is `≥ n`, is the least power of two `≥ n` (so no power of two lies in
`[n, next_pow2 n)`), and equals `n` when `n` is itself a power of two. -/
theorem next_pow2_correct (n : Int) (hn : 0 < n) :
    (∃ k : Nat, next_pow2 n = 2 ^ k) ∧
    n ≤ next_pow2 n ∧
    (∀ k : Nat, n ≤ 2 ^ k → next_pow2 n ≤ 2 ^ k) ∧
    ((∃ k : Nat, n = 2 ^ k) → next_pow2 n = n) := by
  obtain ⟨h1, _, h3, h4⟩ :=
    nextPow2Go_spec (n.toNat + 1) 1 n (by norm_num) (next_pow2_budget n)
  have hpow : ∃ k : Nat, next_pow2 n = 2 ^ k := by
    obtain ⟨i, hi⟩ := h3
    exact ⟨i, by simpa [next_pow2] using hi⟩
  have hmin : ∀ k : Nat, n ≤ 2 ^ k → next_pow2 n ≤ 2 ^ k := by
    intro k hk
    have := h4 (2 ^ k) hk ⟨k, by ring⟩
    simpa [next_pow2] using this
  refine ⟨hpow, h1, hmin, ?_⟩
  rintro ⟨k, rfl⟩
  exact le_antisymm (hmin k (le_refl _)) h1

/-- Witness for `next_pow2_correct` at `n = 5`. -/
theorem next_pow2_correct_witness :
    (∃ k : Nat, next_pow2 5 = 2 ^ k) ∧
    (5 : Int) ≤ next_pow2 5 ∧
    (∀ k : Nat, (5 : Int) ≤ 2 ^ k → next_pow2 5 ≤ 2 ^ k) ∧
    ((∃ k : Nat, (5 : Int) = 2 ^ k) → next_pow2 5 = 5) :=
  next_pow2_correct 5 (by decide)

/-- C10: `next_pow2` is total on all integers.  For `n ≤ 1` the loop guard
`1 < n` fails at once, so the loop body never runs and the result is `1`;
for every `n` the loop terminates within the budget `n.toNat + 1`, so any
larger budget yields the same result. -/
theorem next_pow2_total (n : Int) :
    (n ≤ 1 → nextPow2Go 1 1 n = 1 ∧ next_pow2 n = 1) ∧
    (∀ gas : Nat, n.toNat + 1 ≤ gas → nextPow2Go gas 1 n = next_pow2 n) := by
  constructor
  · intro h
    have hguard : ¬ (1 : Int) < n := by omega
    constructor
    · simp [nextPow2Go, hguard]
    · have hst := nextPow2Go_stable 0 1 n (by norm_num) (by simpa using h)
        (n.toNat + 1) (Nat.zero_le _)
      simp only [next_pow2, hst]
      rfl
  · intro gas hgas
    have := nextPow2Go_stable (n.toNat + 1) 1 n (by norm_num) (next_pow2_budget n) gas hgas
    simpa [next_pow2] using this

/-- Witness for `next_pow2_total` at `n = -7` and `gas = 9`. -/
theorem next_pow2_total_witness :
    (nextPow2Go 1 1 (-7) = 1 ∧ next_pow2 (-7) = 1) ∧ nextPow2Go 9 1 (-7) = next_pow2 (-7) :=
  ⟨(next_pow2_total (-7)).1 (by decide), (next_pow2_total (-7)).2 9 (by decide)⟩

/-! ## Filesystem and image model

`resize_to_pow2` and `main` act on the filesystem through `os`, `shutil`
and PIL.  Paths are embedded as lists of components; a file is its byte
content plus modification-time metadata.  PIL images are abstracted to the
attributes the script inspects — width, height and mode — and an encoded
file records the image it decodes to together with its container format;
equality of `FileContent` values models byte-for-byte equality of files. -/

/-- A filesystem path, as its list of components. -/
abbrev FsPath := List String

/-- A decoded PIL image, abstracted to the attributes the script reads:
`img.size = (width, height)` and `img.mode`.  Pixel contents are never
inspected by the script and are abstracted away. -/
structure Image where
  width : Int
  height : Int
  mode : String
deriving DecidableEq

/-- The bytes of a file: either a valid encoded image together with its
container format (e.g. "PNG"), or bytes PIL cannot decode. -/
inductive FileContent where
  | image (img : Image) (format : String)
  | undecodable (bytes : List Nat)
deriving DecidableEq

/-- A file on disk: contents plus modification-time metadata. -/
structure DiskFile where
  content : FileContent
  mtime : Int
deriving DecidableEq

/-- Filesystem state: an association list of files and the set of
existing directories. -/
structure FS where
  files : List (FsPath × DiskFile)
  dirs : List FsPath
deriving DecidableEq

/-- Look a path up in the file table. -/
def lookupFile : List (FsPath × DiskFile) → FsPath → Option DiskFile
  | [], _ => none
  | (q, f) :: rest, p => if q = p then some f else lookupFile rest p

/-- Create or overwrite the file at `p`. -/
def writeFile : List (FsPath × DiskFile) → FsPath → DiskFile → List (FsPath × DiskFile)
  | [], p, f => [(p, f)]
  | (q, g) :: rest, p, f => if q = p then (p, f) :: rest else (q, g) :: writeFile rest p f

/-- `os.path.dirname`, on component lists. -/
def dirname (p : FsPath) : FsPath := p.dropLast

/-- Common-tail step of `os.path.relpath`: strip the longest common leading
run of components, then climb with one ".." per remaining component of the
start path. -/
def relpathGo : FsPath → FsPath → FsPath
  | x :: xs, y :: ys => if x = y then relpathGo xs ys else (y :: ys).map (fun _ => "..") ++ (x :: xs)
  | xs, [] => xs
  | [], y :: ys => (y :: ys).map (fun _ => "..")

/-- `os.path.relpath(p, start)` on component lists; the empty result is ".". -/
def relpath (p start : FsPath) : FsPath :=
  match relpathGo p start with
  | [] => ["."]
  | r => r

/-- `Path.mkdir(exist_ok=True)`: create one directory if absent.  Files are
untouched. -/
def addDir (fs : FS) (d : FsPath) : FS :=
  if d ∈ fs.dirs then fs else { fs with dirs := d :: fs.dirs }

/-- `os.makedirs(d, exist_ok=True)`: create `d` and every missing
ancestor. -/
def makedirs (fs : FS) (d : FsPath) : FS :=
  ((List.range d.length).map (fun i => d.take (i + 1))).foldl addDir fs

/-- `shutil.copy2(src, dst)`: copy file contents and metadata (mtime) to
`dst`.  Raises if the source does not exist, leaving the state unchanged. -/
def copy2 (fs : FS) (src dst : FsPath) : FS × Except String Unit :=
  match lookupFile fs.files src with
  | none => (fs, .error "FileNotFoundError")
  | some f => ({ fs with files := writeFile fs.files dst f }, .ok ())

/-- `PIL.Image.open(path)`: look the file up and decode it; raises for a
missing path or for bytes that are not an image. -/
def imageOpen (fs : FS) (p : FsPath) : Except String Image :=
  match lookupFile fs.files p with
  | none => .error "FileNotFoundError"
  | some f =>
    match f.content with
    | .image img _ => .ok img
    | .undecodable _ => .error "cannot identify image file"

/-- `img.convert('RGBA')`: same dimensions, mode replaced by RGBA. -/
def convertRGBA (img : Image) : Image := { img with mode := "RGBA" }

/-- `img.resize((w, h), Image.Resampling.LANCZOS)`: dimensions replaced,
mode kept. -/
def imageResize (img : Image) (w h : Int) : Image := { img with width := w, height := h }

/-- `new_img.save(img_path, 'PNG')` at time `now`: overwrite `img_path`
with a PNG encoding of `new_img`; the overwritten file gets a fresh
mtime. -/
def savePNG (fs : FS) (p : FsPath) (img : Image) (now : Int) : FS :=
  { fs with files := writeFile fs.files p ⟨.image img "PNG", now⟩ }

/-- The backup location computed by `resize_to_pow2`:
`os.path.join(backup_dir, os.path.relpath(img_path, os.path.dirname(backup_dir)))`. -/
def backupPath (img_path backup_dir : FsPath) : FsPath :=
  backup_dir ++ relpath img_path (dirname backup_dir)

/-- `resize_to_pow2(img_path, backup_dir)` from resize_textures.py, as a
state transformer run at time `now`.  The `Except` value is the function's
return value `(was_resized, original_size, new_size)` or the uncaught
exception's message; the returned state carries the side effects performed
before any exception, as in Python. -/
def resize_to_pow2 (fs : FS) (img_path backup_dir : FsPath) (now : Int) :
    FS × Except String (Bool × (Int × Int) × (Int × Int)) :=
  match imageOpen fs img_path with
  | .error e => (fs, .error e)
  | .ok img =>
    if is_pow2 img.width && is_pow2 img.height then
      (fs, .ok (false, (img.width, img.height), (img.width, img.height)))
    else
      let new_width := next_pow2 img.width
      let new_height := next_pow2 img.height
      let backup_path := backupPath img_path backup_dir
      let fs1 := makedirs fs (dirname backup_path)
      match copy2 fs1 img_path backup_path with
      | (fs2, .error e) => (fs2, .error e)
      | (fs2, .ok ()) =>
        let img2 := if img.mode ≠ "RGBA" then convertRGBA img else img
        let new_img := imageResize img2 new_width new_height
        (savePNG fs2 img_path new_img now,
         .ok (true, (img.width, img.height), (new_width, new_height)))

/-- The run summary accumulated by `main`: counters plus the recorded
`(path, message)` failure pairs, in order. -/
structure RunSummary where
  resized : Nat
  skipped : Nat
  errors : List (FsPath × String)
deriving DecidableEq

/-- How a run of `main` ends: the fatal missing-assets path (message
printed, `exit(1)`), or normal completion with a summary. -/
inductive RunOutcome where
  | fatal
  | completed (s : RunSummary)
deriving DecidableEq

/-- The process exit status of an outcome. -/
def exitCode : RunOutcome → Nat
  | .fatal => 1
  | .completed _ => 0

/-- Does a path name a PNG file, i.e. does its final component match the
glob pattern `*.png`? -/
def isPngName (p : FsPath) : Bool :=
  match p.getLast? with
  | some s => ".png".data.isSuffixOf s.data
  | none => false

/-- `assets_dir.rglob("*.png")`: every PNG file under `d`, in walk order. -/
def rglobPng (fs : FS) (d : FsPath) : List FsPath :=
  (fs.files.map Prod.fst).filter (fun p => d.isPrefixOf p && isPngName p)

/-- The per-file loop of `main`: call `resize_to_pow2` on each file inside
`try`, counting a resize or a skip, or catch the exception and record
`(path, message)`; processing always continues with the remaining files and
no file is retried. -/
def processFiles (backup_dir : FsPath) (now : Int) : FS → List FsPath → FS × RunSummary
  | fs, [] => (fs, ⟨0, 0, []⟩)
  | fs, p :: rest =>
    match resize_to_pow2 fs p backup_dir now with
    | (fs1, .ok (true, _, _)) =>
      let r := processFiles backup_dir now fs1 rest
      (r.1, ⟨r.2.resized + 1, r.2.skipped, r.2.errors⟩)
    | (fs1, .ok (false, _, _)) =>
      let r := processFiles backup_dir now fs1 rest
      (r.1, ⟨r.2.resized, r.2.skipped + 1, r.2.errors⟩)
    | (fs1, .error e) =>
      let r := processFiles backup_dir now fs1 rest
      (r.1, ⟨r.2.resized, r.2.skipped, (p, e) :: r.2.errors⟩)

/-- `main()` from resize_textures.py, over a starting state `fs`, with the
script directory `script_dir` (`Path(__file__).parent`), run at time
`now`. -/
def main (fs : FS) (script_dir : FsPath) (now : Int) : FS × RunOutcome :=
  let assets_dir := script_dir ++ ["assets"]
  if assets_dir ∈ fs.dirs then
    let backup_dir := script_dir ++ ["backup_npot"]
    let fs1 := addDir fs backup_dir
    let png_files := rglobPng fs1 assets_dir
    let r := processFiles backup_dir now fs1 png_files
    (r.1, .completed r.2)
  else
    (fs, .fatal)

/-! ## Basic lemmas about the filesystem model -/

theorem lookupFile_writeFile_self (l : List (FsPath × DiskFile)) (p : FsPath) (f : DiskFile) :
    lookupFile (writeFile l p f) p = some f := by
  induction l with
  | nil => simp [writeFile, lookupFile]
  | cons hd tl ih =>
    obtain ⟨q, g⟩ := hd
    by_cases h : q = p
    · simp [writeFile, lookupFile, h]
    · simp [writeFile, lookupFile, h, ih]

theorem lookupFile_writeFile_ne (l : List (FsPath × DiskFile)) (p q : FsPath) (f : DiskFile)
    (h : q ≠ p) : lookupFile (writeFile l q f) p = lookupFile l p := by
  induction l with
  | nil => simp [writeFile, lookupFile, h]
  | cons hd tl ih =>
    obtain ⟨r, g⟩ := hd
    by_cases hr : r = q
    · subst hr
      simp [writeFile, lookupFile, h]
    · simp [writeFile, lookupFile, hr, ih]

theorem addDir_files (fs : FS) (d : FsPath) : (addDir fs d).files = fs.files := by
  unfold addDir
  split <;> rfl

theorem foldl_addDir_files (ds : List FsPath) (fs : FS) :
    (ds.foldl addDir fs).files = fs.files := by
  induction ds generalizing fs with
  | nil => rfl
  | cons d ds ih => simp [List.foldl, ih, addDir_files]

theorem makedirs_files (fs : FS) (d : FsPath) : (makedirs fs d).files = fs.files :=
  foldl_addDir_files _ fs

theorem addDir_dirs_mono (fs : FS) (d x : FsPath) (h : x ∈ fs.dirs) :
    x ∈ (addDir fs d).dirs := by
  unfold addDir
  split
  · exact h
  · exact List.mem_cons_of_mem d h

theorem addDir_self_mem (fs : FS) (d : FsPath) : d ∈ (addDir fs d).dirs := by
  unfold addDir
  split
  · assumption
  · exact List.mem_cons_self d _

theorem foldl_addDir_dirs_mono (ds : List FsPath) (fs : FS) (x : FsPath) (h : x ∈ fs.dirs) :
    x ∈ (ds.foldl addDir fs).dirs := by
  induction ds generalizing fs with
  | nil => exact h
  | cons d ds ih => exact ih (addDir fs d) (addDir_dirs_mono fs d x h)

theorem foldl_addDir_dirs_of_mem (ds : List FsPath) (fs : FS) (x : FsPath) (h : x ∈ ds) :
    x ∈ (ds.foldl addDir fs).dirs := by
  induction ds generalizing fs with
  | nil => cases h
  | cons d ds ih =>
    rcases List.mem_cons.mp h with rfl | hmem
    · exact foldl_addDir_dirs_mono ds (addDir fs x) x (addDir_self_mem fs x)
    · exact ih (addDir fs d) hmem

theorem makedirs_self_mem (fs : FS) (d : FsPath) (h : d ≠ []) :
    d ∈ (makedirs fs d).dirs := by
  apply foldl_addDir_dirs_of_mem
  have hlen : 0 < d.length := List.length_pos.mpr h
  refine List.mem_map.mpr ⟨d.length - 1, List.mem_range.mpr (by omega), ?_⟩
  rw [show d.length - 1 + 1 = d.length from by omega]
  exact List.take_length d

theorem imageOpen_addDir (fs : FS) (d p : FsPath) :
    imageOpen (addDir fs d) p = imageOpen fs p := by
  simp [imageOpen, addDir_files]

theorem rglobPng_addDir (fs : FS) (d a : FsPath) :
    rglobPng (addDir fs d) a = rglobPng fs a := by
  simp [rglobPng, addDir_files]

/-! ## Lemmas about the path computed for the backup -/

theorem relpathGo_append (s t : FsPath) : relpathGo (s ++ t) s = t := by
  induction s with
  | nil =>
    cases t with
    | nil => rfl
    | cons x xs => rfl
  | cons a s ih => simpa [relpathGo] using ih

theorem relpath_append (s t : FsPath) (h : t ≠ []) : relpath (s ++ t) s = t := by
  unfold relpath
  rw [relpathGo_append]
  cases t with
  | nil => exact absurd rfl h
  | cons x xs => rfl

theorem dirname_append_single (s : FsPath) (a : String) : dirname (s ++ [a]) = s := by
  simp [dirname]

/-- The backup location for an asset `script ++ "assets" :: rel` with the
backup root `script ++ ["backup_npot"]`: it mirrors the path relative to the
script directory (the parent of the backup root), so the "assets" component
reappears under the backup root. -/
theorem backupPath_eq (script : FsPath) (rel : List String) :
    backupPath (script ++ "assets" :: rel) (script ++ ["backup_npot"]) =
      script ++ "backup_npot" :: "assets" :: rel := by
  unfold backupPath
  rw [dirname_append_single, relpath_append script ("assets" :: rel) (by simp)]
  simp

/-! ## Behaviour of the transformer on a single file -/

/-- On an already-POW2 image the transformer returns immediately: the state
is untouched and the reported new size equals the original size. -/
theorem resize_to_pow2_pow2 (fs : FS) (p b : FsPath) (now : Int) (img : Image)
    (hopen : imageOpen fs p = .ok img)
    (hw : is_pow2 img.width = true) (hh : is_pow2 img.height = true) :
    resize_to_pow2 fs p b now =
      (fs, .ok (false, (img.width, img.height), (img.width, img.height))) := by
  simp [resize_to_pow2, hopen, hw, hh]

/-- On an NPOT image the transformer performs exactly: create the backup
directories, copy the original (bytes and mtime) to `backupPath`, then
overwrite the original with the stretched RGBA image PNG-encoded at time
`now`. -/
theorem resize_to_pow2_npot (fs : FS) (p b : FsPath) (now : Int) (f : DiskFile)
    (img : Image) (fmt : String)
    (hlook : lookupFile fs.files p = some f)
    (hcontent : f.content = .image img fmt)
    (hnpot : (is_pow2 img.width && is_pow2 img.height) = false) :
    resize_to_pow2 fs p b now =
      (⟨writeFile (writeFile fs.files (backupPath p b) f) p
          ⟨.image (imageResize (if img.mode ≠ "RGBA" then convertRGBA img else img)
              (next_pow2 img.width) (next_pow2 img.height)) "PNG", now⟩,
        (makedirs fs (dirname (backupPath p b))).dirs⟩,
       .ok (true, (img.width, img.height), (next_pow2 img.width, next_pow2 img.height))) := by
  have hopen : imageOpen fs p = .ok img := by
    simp [imageOpen, hlook, hcontent]
  have hfiles : (makedirs fs (dirname (backupPath p b))).files = fs.files :=
    makedirs_files fs _
  simp only [resize_to_pow2, hopen, hnpot, Bool.false_eq_true, if_false, copy2, hfiles, hlook,
    savePNG]

/-- The stretched image written back always has mode RGBA and the POW2
target dimensions. -/
theorem imageResize_convert_mode (img : Image) (w h : Int) :
    imageResize (if img.mode ≠ "RGBA" then convertRGBA img else img) w h =
      ⟨w, h, "RGBA"⟩ := by
  by_cases hm : img.mode = "RGBA"
  · simp [imageResize, hm]
  · simp [imageResize, convertRGBA, hm]

/-- `processFiles` skips every file whose image is already POW2-sized,
leaving the state untouched. -/
theorem processFiles_all_pow2 (b : FsPath) (now : Int) : ∀ (l : List FsPath) (fs : FS),
    (∀ p ∈ l, ∃ img : Image, imageOpen fs p = .ok img ∧
       is_pow2 img.width = true ∧ is_pow2 img.height = true) →
    processFiles b now fs l = (fs, ⟨0, l.length, []⟩) := by
  intro l
  induction l with
  | nil => intro fs _; rfl
  | cons p rest ih =>
    intro fs h
    obtain ⟨img, hopen, hw, hh⟩ := h p (List.mem_cons_self p rest)
    have hres := resize_to_pow2_pow2 fs p b now img hopen hw hh
    have hrest := ih fs (fun q hq => h q (List.mem_cons_of_mem p hq))
    simp [processFiles, hres, hrest]

/-! ## Concrete states used to evaluate the theorems -/

/-- A 3×5 (NPOT) RGB PNG with mtime 10. -/
def sampleNpotFile : DiskFile := ⟨.image ⟨3, 5, "RGB"⟩ "PNG", 10⟩

/-- A state holding only the NPOT asset `s/assets/a.png`. -/
def sampleNpotFS : FS :=
  ⟨[(["s", "assets", "a.png"], sampleNpotFile)], [["s"], ["s", "assets"]]⟩

/-- A state holding only the POW2-sized asset `s/assets/b.png` (4×8 RGBA). -/
def samplePow2FS : FS :=
  ⟨[(["s", "assets", "b.png"], ⟨.image ⟨4, 8, "RGBA"⟩ "PNG", 10⟩)], [["s"], ["s", "assets"]]⟩

/-- A state holding only `s/assets/c.png`, whose bytes are not an image. -/
def sampleBadFS : FS :=
  ⟨[(["s", "assets", "c.png"], ⟨.undecodable [0], 3⟩)], [["s"], ["s", "assets"]]⟩

/-- A state with no directories at all, in particular no assets dir. -/
def sampleEmptyFS : FS := ⟨[], []⟩

/-! ## The claims -/

/-- C2: a run of the transformer on a file holding an image whose width or
height is NPOT overwrites that file with an image of size exactly
`(next_pow2 w, next_pow2 h)`, PNG-encoded, in RGBA mode (also when the
input mode had no alpha channel), and returns the resized flag together
with the original and new dimension pairs. -/
theorem resize_npot_overwrites_pow2_rgba_png (fs : FS) (p b : FsPath) (now : Int)
    (f : DiskFile) (img : Image) (fmt : String)
    (hlook : lookupFile fs.files p = some f)
    (hcontent : f.content = .image img fmt)
    (hnpot : (is_pow2 img.width && is_pow2 img.height) = false) :
    ∃ fs2 : FS,
      resize_to_pow2 fs p b now =
        (fs2, .ok (true, (img.width, img.height),
          (next_pow2 img.width, next_pow2 img.height))) ∧
      lookupFile fs2.files p =
        some ⟨.image ⟨next_pow2 img.width, next_pow2 img.height, "RGBA"⟩ "PNG", now⟩ := by
  refine ⟨_, resize_to_pow2_npot fs p b now f img fmt hlook hcontent hnpot, ?_⟩
  rw [imageResize_convert_mode]
  exact lookupFile_writeFile_self _ _ _

/-- Witness for `resize_npot_overwrites_pow2_rgba_png` on the concrete
3×5 RGB asset: the output is a 4×8 RGBA PNG. -/
theorem resize_npot_overwrites_pow2_rgba_png_witness :
    ∃ fs2 : FS,
      resize_to_pow2 sampleNpotFS ["s", "assets", "a.png"] ["s", "backup_npot"] 99 =
        (fs2, .ok (true, ((3 : Int), (5 : Int)), ((4 : Int), (8 : Int)))) ∧
      lookupFile fs2.files ["s", "assets", "a.png"] =
        some ⟨.image ⟨4, 8, "RGBA"⟩ "PNG", 99⟩ :=
  resize_npot_overwrites_pow2_rgba_png sampleNpotFS ["s", "assets", "a.png"]
    ["s", "backup_npot"] 99 sampleNpotFile ⟨3, 5, "RGB"⟩ "PNG" rfl rfl (by decide)

/-- C3: a backup copy is written if and only if the file's image is NPOT:
on a POW2 image the state is returned untouched (so nothing, in particular
no backup, is written), and on an NPOT image the pre-run file appears at
the backup location. -/
theorem backup_iff_npot (fs : FS) (p b : FsPath) (now : Int) (f : DiskFile)
    (img : Image) (fmt : String)
    (hlook : lookupFile fs.files p = some f)
    (hcontent : f.content = .image img fmt)
    (hne : backupPath p b ≠ p) :
    ((is_pow2 img.width && is_pow2 img.height) = true →
      resize_to_pow2 fs p b now =
        (fs, .ok (false, (img.width, img.height), (img.width, img.height)))) ∧
    ((is_pow2 img.width && is_pow2 img.height) = false →
      lookupFile (resize_to_pow2 fs p b now).1.files (backupPath p b) = some f) := by
  constructor
  · intro hpow
    obtain ⟨hw, hh⟩ := Bool.and_eq_true_iff.mp hpow
    exact resize_to_pow2_pow2 fs p b now img (by simp [imageOpen, hlook, hcontent]) hw hh
  · intro hnpot
    rw [resize_to_pow2_npot fs p b now f img fmt hlook hcontent hnpot]
    rw [lookupFile_writeFile_ne _ _ _ _ (Ne.symm hne)]
    exact lookupFile_writeFile_self _ _ _

/-- Witness for `backup_iff_npot` on the concrete 3×5 NPOT asset. -/
theorem backup_iff_npot_witness :
    ((is_pow2 (3 : Int) && is_pow2 (5 : Int)) = true →
      resize_to_pow2 sampleNpotFS ["s", "assets", "a.png"] ["s", "backup_npot"] 99 =
        (sampleNpotFS, .ok (false, ((3 : Int), (5 : Int)), ((3 : Int), (5 : Int))))) ∧
    ((is_pow2 (3 : Int) && is_pow2 (5 : Int)) = false →
      lookupFile
        (resize_to_pow2 sampleNpotFS ["s", "assets", "a.png"] ["s", "backup_npot"] 99).1.files
        (backupPath ["s", "assets", "a.png"] ["s", "backup_npot"]) = some sampleNpotFile) :=
  backup_iff_npot sampleNpotFS ["s", "assets", "a.png"] ["s", "backup_npot"] 99
    sampleNpotFile ⟨3, 5, "RGB"⟩ "PNG" rfl rfl (by decide)

/-- C4 counterexample: the backup does NOT land at the path under the
backup root that mirrors the file's relative path under the assets root
(`s/backup_npot/a.png` stays absent); it lands at
`s/backup_npot/assets/a.png`, mirroring the path relative to the script
directory. -/
theorem backup_not_mirroring_assets_root :
    (resize_to_pow2 sampleNpotFS ["s", "assets", "a.png"] ["s", "backup_npot"] 99).2 =
      .ok (true, ((3 : Int), (5 : Int)), ((4 : Int), (8 : Int))) ∧
    lookupFile
      (resize_to_pow2 sampleNpotFS ["s", "assets", "a.png"] ["s", "backup_npot"] 99).1.files
      ["s", "backup_npot", "a.png"] = none ∧
    lookupFile
      (resize_to_pow2 sampleNpotFS ["s", "assets", "a.png"] ["s", "backup_npot"] 99).1.files
      ["s", "backup_npot", "assets", "a.png"] = some sampleNpotFile :=
  ⟨rfl, by decide, by decide⟩

/-- C4 (amended): for an NPOT file the transformer copies the original
byte-for-byte together with its mtime metadata (shutil.copy2) to
`backupPath p b`, creating the intermediate directories, before any
mutation — in the final state the backup still equals the pre-run file even
though the original path was overwritten.  The mirrored path is relative to
the parent of the backup root (the script directory), not to the assets
root: the backup of `script/assets/rel` lands at
`script/backup_npot/assets/rel`. -/
theorem backup_byte_identical_before_mutation (fs : FS) (p b : FsPath) (now : Int)
    (f : DiskFile) (img : Image) (fmt : String)
    (hlook : lookupFile fs.files p = some f)
    (hcontent : f.content = .image img fmt)
    (hnpot : (is_pow2 img.width && is_pow2 img.height) = false)
    (hne : backupPath p b ≠ p) :
    (∃ fs2 : FS,
      resize_to_pow2 fs p b now =
        (fs2, .ok (true, (img.width, img.height),
          (next_pow2 img.width, next_pow2 img.height))) ∧
      lookupFile fs2.files (backupPath p b) = some f ∧
      (dirname (backupPath p b) ≠ [] → dirname (backupPath p b) ∈ fs2.dirs)) ∧
    ∀ (script rel : List String),
      backupPath (script ++ "assets" :: rel) (script ++ ["backup_npot"]) =
        script ++ "backup_npot" :: "assets" :: rel := by
  constructor
  · refine ⟨_, resize_to_pow2_npot fs p b now f img fmt hlook hcontent hnpot, ?_, ?_⟩
    · rw [lookupFile_writeFile_ne _ _ _ _ (Ne.symm hne)]
      exact lookupFile_writeFile_self _ _ _
    · intro hnil
      exact makedirs_self_mem fs _ hnil
  · exact backupPath_eq

/-- Witness for `backup_byte_identical_before_mutation` on the concrete
3×5 NPOT asset. -/
theorem backup_byte_identical_before_mutation_witness :
    (∃ fs2 : FS,
      resize_to_pow2 sampleNpotFS ["s", "assets", "a.png"] ["s", "backup_npot"] 99 =
        (fs2, .ok (true, ((3 : Int), (5 : Int)), ((4 : Int), (8 : Int)))) ∧
      lookupFile fs2.files (backupPath ["s", "assets", "a.png"] ["s", "backup_npot"]) =
        some sampleNpotFile ∧
      (dirname (backupPath ["s", "assets", "a.png"] ["s", "backup_npot"]) ≠ [] →
        dirname (backupPath ["s", "assets", "a.png"] ["s", "backup_npot"]) ∈ fs2.dirs)) ∧
    ∀ (script rel : List String),
      backupPath (script ++ "assets" :: rel) (script ++ ["backup_npot"]) =
        script ++ "backup_npot" :: "assets" :: rel :=
  backup_byte_identical_before_mutation sampleNpotFS ["s", "assets", "a.png"]
    ["s", "backup_npot"] 99 sampleNpotFile ⟨3, 5, "RGB"⟩ "PNG" rfl rfl (by decide) (by decide)

/-- C5 counterexample: in a run in which no file needs resizing (the only
PNG is already POW2-sized), `main` still creates the backup directory. -/
theorem backup_dir_not_lazy :
    ["s", "backup_npot"] ∈ (main samplePow2FS ["s"] 7).1.dirs ∧
    ["s", "backup_npot"] ∉ samplePow2FS.dirs ∧
    (main samplePow2FS ["s"] 7).2 = .completed ⟨0, 1, []⟩ :=
  ⟨by decide, by decide, by decide⟩

/-- C5 (amended): the backup directory is created unconditionally at
startup (as soon as the assets directory exists), even in a run in which no
file needs resizing; in such a run nothing is written into it — the file
table is unchanged and the run completes with zero resizes and no
errors. -/
theorem backup_dir_created_unconditionally (fs : FS) (script : FsPath) (now : Int)
    (hassets : script ++ ["assets"] ∈ fs.dirs)
    (hall : ∀ p ∈ rglobPng fs (script ++ ["assets"]), ∃ img : Image,
       imageOpen fs p = .ok img ∧ is_pow2 img.width = true ∧ is_pow2 img.height = true) :
    script ++ ["backup_npot"] ∈ (main fs script now).1.dirs ∧
    (main fs script now).1.files = fs.files ∧
    (main fs script now).2 =
      .completed ⟨0, (rglobPng fs (script ++ ["assets"])).length, []⟩ := by
  have hglob : rglobPng (addDir fs (script ++ ["backup_npot"])) (script ++ ["assets"]) =
      rglobPng fs (script ++ ["assets"]) := rglobPng_addDir fs _ _
  have hpf := processFiles_all_pow2 (script ++ ["backup_npot"]) now
      (rglobPng fs (script ++ ["assets"])) (addDir fs (script ++ ["backup_npot"]))
      (fun p hp => by
        obtain ⟨img, hopen, hw, hh⟩ := hall p hp
        exact ⟨img, by rw [imageOpen_addDir]; exact hopen, hw, hh⟩)
  have hmain : main fs script now =
      (addDir fs (script ++ ["backup_npot"]),
       .completed ⟨0, (rglobPng fs (script ++ ["assets"])).length, []⟩) := by
    simp [main, hassets, hglob, hpf]
  rw [hmain]
  exact ⟨addDir_self_mem fs _, addDir_files fs _, rfl⟩

/-- Witness for `backup_dir_created_unconditionally` on the concrete state
whose only PNG is POW2-sized. -/
theorem backup_dir_created_unconditionally_witness :
    ["s"] ++ ["backup_npot"] ∈ (main samplePow2FS ["s"] 7).1.dirs ∧
    (main samplePow2FS ["s"] 7).1.files = samplePow2FS.files ∧
    (main samplePow2FS ["s"] 7).2 =
      .completed ⟨0, (rglobPng samplePow2FS (["s"] ++ ["assets"])).length, []⟩ :=
  backup_dir_created_unconditionally samplePow2FS ["s"] 7 (by decide)
    (by
      intro p hp
      have hglob : rglobPng samplePow2FS (["s"] ++ ["assets"]) = [["s", "assets", "b.png"]] := by
        decide
      rw [hglob] at hp
      have hp1 : p = ["s", "assets", "b.png"] := by simpa using hp
      subst hp1
      exact ⟨⟨4, 8, "RGBA"⟩, rfl, by decide, by decide⟩)

/-- C6: every exception raised while processing one file is caught at the
driver's call site, recorded once as a `(path, message)` pair, and counted;
the remaining files are still processed (every file in the batch
contributes exactly one unit to resized + skipped + errors) and no file is
retried. -/
theorem per_file_errors_caught (b : FsPath) (now : Int) :
    (∀ (fs : FS) (files : List FsPath),
       (processFiles b now fs files).2.resized + (processFiles b now fs files).2.skipped +
         (processFiles b now fs files).2.errors.length = files.length) ∧
    (∀ (fs fs1 : FS) (p : FsPath) (e : String) (rest : List FsPath),
       resize_to_pow2 fs p b now = (fs1, .error e) →
       processFiles b now fs (p :: rest) =
         ((processFiles b now fs1 rest).1,
          ⟨(processFiles b now fs1 rest).2.resized,
           (processFiles b now fs1 rest).2.skipped,
           (p, e) :: (processFiles b now fs1 rest).2.errors⟩)) := by
  constructor
  · intro fs files
    induction files generalizing fs with
    | nil => rfl
    | cons p rest ih =>
      rcases hres : resize_to_pow2 fs p b now with ⟨fs1, e | val⟩
      · have hx := ih fs1
        simp only [processFiles, hres, List.length_cons]
        omega
      · obtain ⟨flag, os, ns⟩ := val
        have hx := ih fs1
        cases flag
        · simp only [processFiles, hres, List.length_cons]
          omega
        · simp only [processFiles, hres, List.length_cons]
          omega
  · intro fs fs1 p e rest hres
    simp [processFiles, hres]

/-- Witness for `per_file_errors_caught`: the undecodable `c.png` is
recorded as one error and processing of the (empty) remainder continues. -/
theorem per_file_errors_caught_witness :
    processFiles ["s", "backup_npot"] 3 sampleBadFS [["s", "assets", "c.png"]] =
      ((processFiles ["s", "backup_npot"] 3 sampleBadFS []).1,
       ⟨(processFiles ["s", "backup_npot"] 3 sampleBadFS []).2.resized,
        (processFiles ["s", "backup_npot"] 3 sampleBadFS []).2.skipped,
        (["s", "assets", "c.png"], "cannot identify image file") ::
          (processFiles ["s", "backup_npot"] 3 sampleBadFS []).2.errors⟩) :=
  (per_file_errors_caught ["s", "backup_npot"] 3).2 sampleBadFS sampleBadFS
    ["s", "assets", "c.png"] "cannot identify image file" [] rfl

/-- C7: when the assets directory does not exist, `main` reports the fatal
error and exits with status 1 before touching anything: the state is
returned exactly as given, so no backup directory is created and no file is
read or modified. -/
theorem missing_assets_dir_fatal (fs : FS) (script : FsPath) (now : Int)
    (h : script ++ ["assets"] ∉ fs.dirs) :
    main fs script now = (fs, .fatal) ∧ exitCode (main fs script now).2 = 1 := by
  have hm : main fs script now = (fs, .fatal) := by simp [main, h]
  exact ⟨hm, by rw [hm]; rfl⟩


/-- Witness for `missing_assets_dir_fatal` on the empty state. -/
theorem missing_assets_dir_fatal_witness :
    main sampleEmptyFS ["s"] 0 = (sampleEmptyFS, .fatal) ∧
    exitCode (main sampleEmptyFS ["s"] 0).2 = 1 :=
  missing_assets_dir_fatal sampleEmptyFS ["s"] 0 (by decide)

/-- C8: the transformer is idempotent on POW2-sized files: it returns the
unchanged flag with the original size reported as both original and new
size, performs no side effects (the state is returned untouched, so no
backup is created), and a second run on the resulting state behaves
identically. -/
theorem resize_pow2_noop_idempotent (fs : FS) (p b : FsPath) (now : Int) (img : Image)
    (hopen : imageOpen fs p = .ok img)
    (hw : is_pow2 img.width = true) (hh : is_pow2 img.height = true) :
    resize_to_pow2 fs p b now =
      (fs, .ok (false, (img.width, img.height), (img.width, img.height))) ∧
    resize_to_pow2 (resize_to_pow2 fs p b now).1 p b now = resize_to_pow2 fs p b now := by
  have h1 := resize_to_pow2_pow2 fs p b now img hopen hw hh
  refine ⟨h1, ?_⟩
  rw [h1]
  exact h1

/-- Witness for `resize_pow2_noop_idempotent` on the concrete 4×8 RGBA
asset. -/
theorem resize_pow2_noop_idempotent_witness :
    resize_to_pow2 samplePow2FS ["s", "assets", "b.png"] ["s", "backup_npot"] 7 =
      (samplePow2FS, .ok (false, ((4 : Int), (8 : Int)), ((4 : Int), (8 : Int)))) ∧
    resize_to_pow2
        (resize_to_pow2 samplePow2FS ["s", "assets", "b.png"] ["s", "backup_npot"] 7).1
        ["s", "assets", "b.png"] ["s", "backup_npot"] 7 =
      resize_to_pow2 samplePow2FS ["s", "assets", "b.png"] ["s", "backup_npot"] 7 :=
  resize_pow2_noop_idempotent samplePow2FS ["s", "assets", "b.png"] ["s", "backup_npot"] 7
    ⟨4, 8, "RGBA"⟩ rfl (by decide) (by decide)

end ResizeTextures
